import Mathlib

/-!
# Model of the WideBot user-administration CRUD core

This file embeds the client-side reactive state/CRUD synchronization layer of
the WideBot admin application (`UserService` in the repository source) as pure
Lean functions, and proves the specified properties about it.

The service keeps an in-memory list of `User` records (a `BehaviorSubject` in
the source), a loading flag, and a single-slot pending-deletion buffer
(`lastDeletedUser`).  Every mutating operation is asynchronous in the source:
it applies an optimistic edit synchronously, issues one HTTP request, and on
completion either reconciles the cache with the server response or rolls the
cache back.  We model this by giving each operation the remote outcome as an
explicit argument, and by splitting update and delete into their synchronous
start phase and their completion phase so that interleavings (a state change
while the request is in flight) remain expressible.  The requests an operation
issues are returned explicitly so that "no network call is attempted" is a
provable statement.
-/

/-- The TypeScript union type UserRole, admin | user (user.model.ts). -/
inductive UserRole where
  | admin
  | user
deriving DecidableEq, Repr

/-- The TypeScript union type UserStatus, active | inactive (user.model.ts). -/
inductive UserStatus where
  | active
  | inactive
deriving DecidableEq, Repr

/-- The User entity (user.model.ts).  Optional TypeScript fields become
Option-valued fields. -/
structure User where
  id : Nat
  username : String
  email : String
  firstName : String
  lastName : String
  role : UserRole
  status : UserStatus
  phone : Option String := none
  address : Option String := none
  dateOfBirth : Option String := none
  department : Option String := none
  joinDate : Option String := none
  avatar : Option String := none
  lastActive : Option String := none
deriving DecidableEq, Repr

/-- A TypeScript value of type Partial User: every field may be absent.  A
present field overwrites the corresponding field of the record it is spread
over. -/
structure UserPatch where
  id : Option Nat := none
  username : Option String := none
  email : Option String := none
  firstName : Option String := none
  lastName : Option String := none
  role : Option UserRole := none
  status : Option UserStatus := none
  phone : Option (Option String) := none
  address : Option (Option String) := none
  dateOfBirth : Option (Option String) := none
  department : Option (Option String) := none
  joinDate : Option (Option String) := none
  avatar : Option (Option String) := none
  lastActive : Option (Option String) := none
deriving DecidableEq, Repr

/-- The shallow merge computed by updateUser: the spread of a patch over an
existing record, field for field. -/
def mergeUser (u : User) (p : UserPatch) : User where
  id := p.id.getD u.id
  username := p.username.getD u.username
  email := p.email.getD u.email
  firstName := p.firstName.getD u.firstName
  lastName := p.lastName.getD u.lastName
  role := p.role.getD u.role
  status := p.status.getD u.status
  phone := p.phone.getD u.phone
  address := p.address.getD u.address
  dateOfBirth := p.dateOfBirth.getD u.dateOfBirth
  department := p.department.getD u.department
  joinDate := p.joinDate.getD u.joinDate
  avatar := p.avatar.getD u.avatar
  lastActive := p.lastActive.getD u.lastActive

/-- The single-slot pending-deletion buffer entry: the record removed by the
most recent delete together with the index it occupied. -/
structure PendingDeletion where
  user : User
  index : Nat
deriving DecidableEq, Repr

/-- The mutable state of UserService: the users BehaviorSubject value, the
lastDeletedUser slot and the loading flag. -/
structure ServiceState where
  users : List User
  lastDeletedUser : Option PendingDeletion := none
  loading : Bool := false
deriving DecidableEq, Repr

/-- Outcome of one HTTP request made against the Remote Store. -/
inductive RemoteResult (α : Type) where
  | ok (val : α)
  | err (msg : String)
deriving DecidableEq, Repr

/-- A request issued to the Remote Store.  The post body is the JSON object
passed to http.post; when undoDelete re-creates a record it is the captured
User unchanged, id included. -/
inductive Request where
  | post (body : User)
  | put (id : Nat) (body : User)
  | delete (id : Nat)
deriving DecidableEq, Repr

/-- Result surfaced to the caller of updateUser. -/
inductive UpdateResult where
  | ok (u : User)
  | notFound
  | remoteFailure (msg : String)
deriving DecidableEq, Repr

/-- Result surfaced to the caller of createUser. -/
inductive CreateResult where
  | ok (u : User)
  | remoteFailure (msg : String)
deriving DecidableEq, Repr

/-- Result surfaced to the caller of deleteUser. -/
inductive DeleteResult where
  | ok
  | notFound
  | remoteFailure (msg : String)
deriving DecidableEq, Repr

/-- Result surfaced to the caller of undoDelete.  nothingToUndo models the
null return value: a no-op, not an error. -/
inductive UndoResult where
  | ok (u : User)
  | nothingToUndo
  | remoteFailure (msg : String)
deriving DecidableEq, Repr

/-- Array.prototype.findIndex paired with the element it finds: the first
index whose element satisfies the test, or none where TypeScript returns -1. -/
def findWithIndex (p : User → Bool) : List User → Option (Nat × User)
  | [] => none
  | u :: rest =>
      if p u then some (0, u)
      else (findWithIndex p rest).map (fun r => (r.1 + 1, r.2))

/-- UserService.createUser: posts the body, and on success appends the
acknowledged record (with its store-assigned id) to the cache; on failure the
cache is untouched and the failure is re-thrown.  The posted body never enters
the cache directly. -/
def createUser (s : ServiceState) (body : User) (resp : RemoteResult User) :
    ServiceState × CreateResult × List Request :=
  match resp with
  | .ok newUser =>
      ({ s with users := s.users ++ [newUser], loading := false },
       .ok newUser, [.post body])
  | .err msg =>
      ({ s with loading := false }, .remoteFailure msg, [.post body])

/-- Synchronous phase of UserService.updateUser: capture the original list,
locate the target by id (failing locally with no request when it is absent),
merge the patch over it and apply the new list optimistically.  On success the
captured original list and the merged request body are returned for the
completion phase. -/
def updateStart (s : ServiceState) (id : Nat) (patch : UserPatch) :
    ServiceState × Option (List User × User) :=
  let originalUsers := s.users
  match findWithIndex (fun u => decide (u.id = id)) originalUsers with
  | none => ({ s with loading := false }, none)
  | some (i, target) =>
      let updatedUser := mergeUser target patch
      ({ s with users := originalUsers.set i updatedUser, loading := true },
       some (originalUsers, updatedUser))

/-- Completion phase of UserService.updateUser: on success the server record
replaces whatever record carries the target id in the cache state current at
completion time (if none does, the cache is left alone); on failure the
captured original list is restored. -/
def updateFinish (s : ServiceState) (originalUsers : List User) (id : Nat)
    (resp : RemoteResult User) : ServiceState × UpdateResult :=
  match resp with
  | .ok serverUser =>
      match findWithIndex (fun u => decide (u.id = id)) s.users with
      | some (idx, _) =>
          ({ s with users := s.users.set idx serverUser, loading := false },
           .ok serverUser)
      | none => ({ s with loading := false }, .ok serverUser)
  | .err msg =>
      ({ s with users := originalUsers, loading := false }, .remoteFailure msg)

/-- UserService.updateUser run sequentially: the optimistic start phase
followed immediately by the completion of its single put request. -/
def updateUser (s : ServiceState) (id : Nat) (patch : UserPatch)
    (resp : RemoteResult User) : ServiceState × UpdateResult × List Request :=
  match updateStart s id patch with
  | (s1, none) => (s1, .notFound, [])
  | (s1, some (originalUsers, body)) =>
      let r := updateFinish s1 originalUsers id resp
      (r.1, r.2, [.put id body])

/-- Synchronous phase of UserService.deleteUser: locate the record (failing
locally with no request when absent), store it with its index in the
single-slot pending-deletion buffer overwriting any previous entry, and remove
it from the cache optimistically.  The captured pre-delete list is returned
for the completion phase. -/
def deleteStart (s : ServiceState) (id : Nat) :
    ServiceState × Option (List User) :=
  let currentUsers := s.users
  match findWithIndex (fun u => decide (u.id = id)) currentUsers with
  | none => ({ s with loading := false }, none)
  | some (i, target) =>
      ({ s with users := currentUsers.filter (fun u => !decide (u.id = id)),
                lastDeletedUser := some ⟨target, i⟩,
                loading := true },
       some currentUsers)

/-- Completion phase of UserService.deleteUser: on success nothing further
changes (the pending-deletion buffer stays populated for undo); on failure the
captured pre-delete list is restored and the buffer is cleared. -/
def deleteFinish (s : ServiceState) (captured : List User)
    (resp : RemoteResult Unit) : ServiceState × DeleteResult :=
  match resp with
  | .ok _ => ({ s with loading := false }, .ok)
  | .err msg =>
      ({ s with users := captured, lastDeletedUser := none, loading := false },
       .remoteFailure msg)

/-- UserService.deleteUser run sequentially: the optimistic start phase
followed immediately by the completion of its single delete request. -/
def deleteUser (s : ServiceState) (id : Nat) (resp : RemoteResult Unit) :
    ServiceState × DeleteResult × List Request :=
  match deleteStart s id with
  | (s1, none) => (s1, .notFound, [])
  | (s1, some captured) =>
      let r := deleteFinish s1 captured resp
      (r.1, r.2, [.delete id])

/-- UserService.undoDelete: when the pending-deletion buffer is empty, return
the no-op nothingToUndo with no request; otherwise clear the buffer first and
re-issue the captured record, unchanged and id included, as a create. -/
def undoDelete (s : ServiceState) (resp : RemoteResult User) :
    ServiceState × UndoResult × List Request :=
  match s.lastDeletedUser with
  | none => (s, .nothingToUndo, [])
  | some pd =>
      let s1 : ServiceState := { s with lastDeletedUser := none }
      match createUser s1 pd.user resp with
      | (s2, .ok u, reqs) => (s2, .ok u, reqs)
      | (s2, .remoteFailure msg, reqs) => (s2, .remoteFailure msg, reqs)

/-- The UserFilter criteria object (user.model.ts): every criterion optional. -/
structure UserFilter where
  searchTerm : Option String := none
  role : Option UserRole := none
  status : Option UserStatus := none
  department : Option String := none
deriving DecidableEq, Repr

/-- Whether the second character list occurs at the start of the first. -/
def charsStartWith : List Char → List Char → Bool
  | _, [] => true
  | [], _ :: _ => false
  | a :: as, b :: bs => a == b && charsStartWith as bs

/-- Whether the second character list occurs contiguously inside the first:
the model of String.prototype.includes. -/
def charsContain : List Char → List Char → Bool
  | [], needle => needle.isEmpty
  | c :: t, needle => charsStartWith (c :: t) needle || charsContain t needle

/-- Lower-casing of a string, character by character: the model of
String.prototype.toLowerCase. -/
def lowerStr (s : String) : List Char := s.data.map Char.toLower

/-- hay.toLowerCase().includes(needle): needle is given already lower-cased,
as in the source where searchLower is computed once. -/
def includesLower (hay : String) (needleLower : List Char) : Bool :=
  charsContain (lowerStr hay) needleLower

/-- UserService.filterUsers translated clause by clause.  Each provided
criterion narrows the running list with one filter pass; a JavaScript-falsy
criterion (absent, or an empty string for searchTerm/department) is skipped.
role and status are union types and can never be the empty string. -/
def filterUsers (s : ServiceState) (f : UserFilter) : List User :=
  let step0 := s.users
  let step1 :=
    match f.searchTerm with
    | none => step0
    | some term =>
        if term = "" then step0
        else
          let searchLower := lowerStr term
          step0.filter (fun u =>
            includesLower u.firstName searchLower ||
            includesLower u.lastName searchLower ||
            includesLower u.email searchLower ||
            includesLower u.username searchLower)
  let step2 :=
    match f.role with
    | none => step1
    | some r => step1.filter (fun u => decide (u.role = r))
  let step3 :=
    match f.status with
    | none => step2
    | some st => step2.filter (fun u => decide (u.status = st))
  match f.department with
  | none => step3
  | some d =>
      if d = "" then step3
      else step3.filter (fun u => decide (u.department = some d))

/-- The spec-side description of one record matching a criteria object,
written from the specification text: searchTerm is a case-insensitive
substring of first name, last name, email or username; role, status and
department are exact matches when provided; omitted criteria impose no
constraint; all provided criteria combine with AND. -/
def matchesFilterSpec (f : UserFilter) (u : User) : Bool :=
  (match f.searchTerm with
   | none => true
   | some t =>
       includesLower u.firstName (lowerStr t) ||
       includesLower u.lastName (lowerStr t) ||
       includesLower u.email (lowerStr t) ||
       includesLower u.username (lowerStr t)) &&
  (match f.role with
   | none => true
   | some r => decide (u.role = r)) &&
  (match f.status with
   | none => true
   | some st => decide (u.status = st)) &&
  (match f.department with
   | none => true
   | some d => decide (u.department = some d))

/-- The PaginatedResponse record returned by getPaginatedUsers
(user.model.ts, specialised to User). -/
structure PaginatedResponse where
  data : List User
  total : Nat
  page : Nat
  pageSize : Nat
  totalPages : Nat
deriving DecidableEq, Repr

/-- The list getPaginatedUsers paginates: the filtered list when criteria are
given, the full snapshot otherwise. -/
def filteredList (s : ServiceState) (f : Option UserFilter) : List User :=
  match f with
  | some flt => filterUsers s flt
  | none => s.users

/-- UserService.getPaginatedUsers.  page is 1-indexed.  Math.ceil of the exact
division total / pageSize is (total + pageSize - 1) / pageSize on naturals
(for pageSize > 0), and Array.prototype.slice (start, start + pageSize) is
drop then take.  The model covers the 1-indexed pages the service is called
with; JavaScript number arithmetic on negative slice bounds is out of scope. -/
def getPaginatedUsers (s : ServiceState) (page pageSize : Nat)
    (f : Option UserFilter) : PaginatedResponse :=
  let filtered := filteredList s f
  let total := filtered.length
  let totalPages := (total + pageSize - 1) / pageSize
  let start := (page - 1) * pageSize
  let data := (filtered.drop start).take pageSize
  { data := data, total := total, page := page, pageSize := pageSize,
    totalPages := totalPages }

/-- One sequential mutating operation together with the outcome its single
remote request will have. -/
inductive MutationOp where
  | create (body : User) (resp : RemoteResult User)
  | update (id : Nat) (patch : UserPatch) (resp : RemoteResult User)
  | delete (id : Nat) (resp : RemoteResult Unit)
  | undo (resp : RemoteResult User)
deriving Repr

/-- The state reached after one sequential operation. -/
def applyOp (s : ServiceState) (op : MutationOp) : ServiceState :=
  match op with
  | .create body resp => (createUser s body resp).1
  | .update id patch resp => (updateUser s id patch resp).1
  | .delete id resp => (deleteUser s id resp).1
  | .undo resp => (undoDelete s resp).1

/-- The state reached after a finite sequence of sequential operations. -/
def runOps (s : ServiceState) : List MutationOp → ServiceState
  | [] => s
  | op :: ops => runOps (applyOp s op) ops

/-- The ids currently held in the cache, in cache order. -/
def cacheIds (s : ServiceState) : List Nat := s.users.map User.id

/-- Well-formedness of one operation against the state it runs in: an
acknowledged create (or undo re-create) response carries an id fresh for the
current cache, an acknowledged update response keeps the target id, and an
update patch does not set the id field.  Failures are unconstrained. -/
def opWellFormed (s : ServiceState) (op : MutationOp) : Bool :=
  match op with
  | .create _ (.ok u) => decide (u.id ∉ cacheIds s)
  | .create _ (.err _) => true
  | .update id patch (.ok u) => decide (patch.id = none) && decide (u.id = id)
  | .update _ patch (.err _) => decide (patch.id = none)
  | .delete _ _ => true
  | .undo (.ok u) => decide (u.id ∉ cacheIds s)
  | .undo (.err _) => true

/-- Well-formedness of a whole sequential trace, each operation judged
against the state it actually runs in. -/
def wellFormedTrace (s : ServiceState) : List MutationOp → Bool
  | [] => true
  | op :: ops => opWellFormed s op && wellFormedTrace (applyOp s op) ops

/-- Equality of every field of two User records except id: what survives the
undo round trip, in which the store assigns a fresh id. -/
def sameRecordFields (a b : User) : Bool :=
  decide (a.username = b.username) && decide (a.email = b.email) &&
  decide (a.firstName = b.firstName) && decide (a.lastName = b.lastName) &&
  decide (a.role = b.role) && decide (a.status = b.status) &&
  decide (a.phone = b.phone) && decide (a.address = b.address) &&
  decide (a.dateOfBirth = b.dateOfBirth) &&
  decide (a.department = b.department) && decide (a.joinDate = b.joinDate) &&
  decide (a.avatar = b.avatar) && decide (a.lastActive = b.lastActive)

/-- A small concrete record used by witnesses. -/
def aliceUser : User :=
  { id := 1, username := "alice", email := "alice@widebot.com",
    firstName := "Alice", lastName := "Anders", role := .admin,
    status := .active, department := some "IT" }

/-- A second concrete record used by witnesses. -/
def bobUser : User :=
  { id := 2, username := "bob", email := "bob@widebot.com",
    firstName := "Bob", lastName := "Berg", role := .user,
    status := .inactive, department := some "IT" }

/-- A third concrete record used by witnesses. -/
def carolUser : User :=
  { id := 3, username := "carol", email := "carol@widebot.com",
    firstName := "Carol", lastName := "Chen", role := .user,
    status := .active, department := some "HR" }

/-- A record as the Remote Store could return it: carolUser under a fresh
store-assigned id. -/
def carolUserFresh : User := { carolUser with id := 7 }

/-- A two-record demo state used by witnesses. -/
def demoState : ServiceState := { users := [aliceUser, bobUser] }

/-- A three-record demo state used by the filter witness, mirroring the
filter example of the specification. -/
def demoState3 : ServiceState := { users := [aliceUser, bobUser, carolUser] }

/-- The patch used by the uniqueness counterexample: it only sets id. -/
def idOnlyPatch : UserPatch := { id := some 1 }

/-- A record indexed by a number, for bulk demo states. -/
def numberedUser (n : Nat) : User :=
  { id := n + 1, username := "u", email := "e", firstName := "f",
    lastName := "l", role := .user, status := .active }

/-- A 25-record demo state used by the pagination witness. -/
def demoState25 : ServiceState := { users := (List.range 25).map numberedUser }

/-- The record a well-behaved store would return for an update of aliceUser:
same id, one field changed. -/
def aliceUpdated : User := { aliceUser with firstName := "Alicia" }

/-- The record a well-behaved store would return for an update of bobUser:
same id, one field changed. -/
def bobRenamed : User := { bobUser with firstName := "Bobby" }

/-! ## Helper lemmas -/

/-- What a successful findWithIndex guarantees: the returned element satisfies
the test and sits at the returned index. -/
theorem findWithIndex_some {p : User → Bool} {l : List User} {i : Nat}
    {u : User} (h : findWithIndex p l = some (i, u)) :
    p u = true ∧ l.get? i = some u := by
  induction l generalizing i with
  | nil => simp [findWithIndex] at h
  | cons a rest ih =>
    by_cases ha : p a
    · simp only [findWithIndex, if_pos ha, Option.some.injEq, Prod.mk.injEq] at h
      obtain ⟨hi, hu⟩ := h
      subst hi
      subst hu
      exact ⟨ha, rfl⟩
    · simp only [findWithIndex, if_neg ha] at h
      cases hfw : findWithIndex p rest with
      | none => rw [hfw] at h; simp at h
      | some r =>
        obtain ⟨j, v⟩ := r
        rw [hfw] at h
        simp only [Option.map_some', Option.some.injEq, Prod.mk.injEq] at h
        obtain ⟨hi, hu⟩ := h
        subst hi
        subst hu
        obtain ⟨hp, hg⟩ := ih hfw
        exact ⟨hp, by simpa using hg⟩

/-- Writing back the value already stored at an index leaves a list alone. -/
theorem set_get?_self {α : Type} {l : List α} {i : Nat} {a : α}
    (h : l.get? i = some a) : l.set i a = l := by
  induction l generalizing i with
  | nil => simp at h
  | cons x xs ih =>
    cases i with
    | zero =>
      simp only [List.get?_cons_zero, Option.some.injEq] at h
      subst h
      rfl
    | succ j =>
      simp only [List.get?_cons_succ] at h
      simp [List.set, ih h]

/-- A well-formed update never changes the list of cached ids: the optimistic
merge keeps the target id (the patch does not set id), and reconciliation
writes the server record over a record carrying that same id. -/
theorem updateUser_cacheIds (s : ServiceState) (id : Nat) (patch : UserPatch)
    (resp : RemoteResult User) (hpatch : patch.id = none)
    (hresp : ∀ v, resp = RemoteResult.ok v → v.id = id) :
    cacheIds (updateUser s id patch resp).1 = cacheIds s := by
  simp only [updateUser, updateStart]
  cases hfw : findWithIndex (fun u => decide (u.id = id)) s.users with
  | none => simp [cacheIds]
  | some r =>
    obtain ⟨i, target⟩ := r
    obtain ⟨hp, hg⟩ := findWithIndex_some hfw
    have htid : target.id = id := of_decide_eq_true hp
    have hmid : (mergeUser target patch).id = id := by
      simp [mergeUser, hpatch, htid]
    have hgid : (s.users.map User.id).get? i = some id := by
      rw [List.get?_eq_getElem?, List.getElem?_map, ← List.get?_eq_getElem?,
        hg]
      simp [htid]
    have hids1 :
        (s.users.set i (mergeUser target patch)).map User.id
          = s.users.map User.id := by
      rw [List.map_set, hmid]
      exact set_get?_self hgid
    cases resp with
    | err msg => simp [updateFinish, cacheIds]
    | ok v =>
      have hvid : v.id = id := hresp v rfl
      simp only [updateFinish]
      cases hfw2 : findWithIndex (fun u => decide (u.id = id))
          (s.users.set i (mergeUser target patch)) with
      | none => simpa [cacheIds] using hids1
      | some r2 =>
        obtain ⟨j, w⟩ := r2
        obtain ⟨hp2, hg2⟩ := findWithIndex_some hfw2
        have hwid : w.id = id := of_decide_eq_true hp2
        have hgid2 :
            ((s.users.set i (mergeUser target patch)).map User.id).get? j
              = some id := by
          rw [List.get?_eq_getElem?, List.getElem?_map,
            ← List.get?_eq_getElem?, hg2]
          simp [hwid]
        simp only [cacheIds]
        rw [List.map_set, hvid, set_get?_self hgid2]
        exact hids1

/-- One well-formed sequential operation preserves distinctness of the cached
ids. -/
theorem applyOp_nodup (s : ServiceState) (op : MutationOp)
    (h : (cacheIds s).Nodup) (hop : opWellFormed s op = true) :
    (cacheIds (applyOp s op)).Nodup := by
  cases op with
  | create body resp =>
    cases resp with
    | ok u =>
      have hfresh : u.id ∉ cacheIds s := of_decide_eq_true hop
      simp only [applyOp, createUser, cacheIds, List.map_append] at *
      simp [List.nodup_append, h, hfresh]
    | err msg => simpa [applyOp, createUser, cacheIds] using h
  | update id patch resp =>
    have hps : patch.id = none ∧ ∀ v, resp = RemoteResult.ok v → v.id = id := by
      cases resp with
      | ok v =>
        simp only [opWellFormed, Bool.and_eq_true, decide_eq_true_eq] at hop
        exact ⟨hop.1, fun w hw => by cases hw; exact hop.2⟩
      | err msg =>
        simp only [opWellFormed, decide_eq_true_eq] at hop
        exact ⟨hop, fun w hw => by cases hw⟩
    simpa [applyOp, updateUser_cacheIds s id patch resp hps.1 hps.2] using h
  | delete id resp =>
    simp only [applyOp, deleteUser, deleteStart]
    cases hfw : findWithIndex (fun u => decide (u.id = id)) s.users with
    | none => simpa [cacheIds] using h
    | some r =>
      obtain ⟨i, target⟩ := r
      cases resp with
      | ok v =>
        simp only [deleteFinish, cacheIds]
        exact ((List.filter_sublist s.users).map User.id).nodup h
      | err msg => simpa [deleteFinish, cacheIds] using h
  | undo resp =>
    simp only [applyOp, undoDelete]
    cases hld : s.lastDeletedUser with
    | none => simpa using h
    | some pd =>
      cases resp with
      | ok u =>
        have hfresh : u.id ∉ cacheIds s := of_decide_eq_true (by simpa [opWellFormed] using hop)
        simp only [createUser, cacheIds, List.map_append] at *
        simp [List.nodup_append, h, hfresh]
      | err msg => simpa [createUser, cacheIds] using h

/-- The empty needle occurs in every haystack, as with
String.prototype.includes. -/
theorem charsContain_nil (hay : List Char) : charsContain hay [] = true := by
  cases hay <;> simp [charsContain, charsStartWith]

/-- An empty search term matches every string. -/
theorem includesLower_empty (x : String) :
    includesLower x (lowerStr "") = true := by
  have h : lowerStr "" = [] := rfl
  rw [includesLower, h]
  exact charsContain_nil _

/-- The chained filter passes of filterUsers compute one single filter by the
conjunction of the provided criteria, exactly as the specification describes,
provided the department criterion is not the JavaScript-falsy empty string. -/
theorem filterUsers_eq_filter (s : ServiceState) (f : UserFilter)
    (hd : f.department ≠ some "") :
    filterUsers s f = s.users.filter (fun u => matchesFilterSpec f u) := by
  obtain ⟨ost, oro, osta, odep⟩ := f
  rcases odep with _ | d
  · rcases ost with _ | t
    · rcases oro with _ | r <;> rcases osta with _ | st <;>
        simp [filterUsers, matchesFilterSpec, List.filter_filter,
          Bool.and_comm, Bool.and_left_comm, Bool.and_assoc]
    · by_cases ht : t = ""
      · subst ht
        rcases oro with _ | r <;> rcases osta with _ | st <;>
          simp [filterUsers, matchesFilterSpec, includesLower_empty,
            List.filter_filter, Bool.and_comm, Bool.and_left_comm,
            Bool.and_assoc]
      · rcases oro with _ | r <;> rcases osta with _ | st <;>
          simp [filterUsers, matchesFilterSpec, ht, List.filter_filter,
            Bool.and_comm, Bool.and_left_comm, Bool.and_assoc]
  · have hd2 : d ≠ "" := by simpa using hd
    rcases ost with _ | t
    · rcases oro with _ | r <;> rcases osta with _ | st <;>
        simp [filterUsers, matchesFilterSpec, hd2, List.filter_filter,
          Bool.and_comm, Bool.and_left_comm, Bool.and_assoc]
    · by_cases ht : t = ""
      · subst ht
        rcases oro with _ | r <;> rcases osta with _ | st <;>
          simp [filterUsers, matchesFilterSpec, hd2, includesLower_empty,
            List.filter_filter, Bool.and_comm, Bool.and_left_comm,
            Bool.and_assoc]
      · rcases oro with _ | r <;> rcases osta with _ | st <;>
          simp [filterUsers, matchesFilterSpec, hd2, ht, List.filter_filter,
            Bool.and_comm, Bool.and_left_comm, Bool.and_assoc]

/-- Element-level description of a slice: element k of
slice (start, start + n) is element start + k of the underlying list. -/
theorem slice_get? {α : Type} (l : List α) (a n k : Nat) (hk : k < n) :
    ((l.drop a).take n).get? k = l.get? (a + k) := by
  rw [List.get?_eq_getElem?, List.getElem?_take, if_pos hk,
    List.getElem?_drop, ← List.get?_eq_getElem?]

/-! ## Claim theorems -/

/-- C1: for every cache state and every Update(id, patch) whose target id is
present, when the Remote Store fails the completed operation leaves the cache
snapshot exactly equal to the snapshot captured when the update was issued
(the optimistic merge is fully discarded), leaves the pending-deletion buffer
alone, and surfaces the failure to the caller. -/
theorem update_remoteFailure_rollback (s : ServiceState) (id : Nat)
    (patch : UserPatch) (msg : String) (i : Nat) (target : User)
    (hfound : findWithIndex (fun u => decide (u.id = id)) s.users
      = some (i, target)) :
    (updateUser s id patch (.err msg)).1.users = s.users ∧
    (updateUser s id patch (.err msg)).1.lastDeletedUser
      = s.lastDeletedUser ∧
    (updateUser s id patch (.err msg)).2.1 = UpdateResult.remoteFailure msg := by
  simp [updateUser, updateStart, hfound, updateFinish]

theorem update_remoteFailure_rollback_witness :
    (updateUser demoState 1 {} (.err "boom")).1.users = demoState.users ∧
    (updateUser demoState 1 {} (.err "boom")).1.lastDeletedUser
      = demoState.lastDeletedUser ∧
    (updateUser demoState 1 {} (.err "boom")).2.1
      = UpdateResult.remoteFailure "boom" :=
  update_remoteFailure_rollback demoState 1 {} "boom" 0 aliceUser (by decide)

/-- C2: for every cache state and every Delete(id) whose target id is present,
when the Remote Store fails the completed operation restores the cache to the
pre-delete list (so the deleted record is present again at its original
index), clears the single-slot pending-deletion buffer, and surfaces the
failure to the caller. -/
theorem delete_remoteFailure_rollback (s : ServiceState) (id : Nat)
    (msg : String) (i : Nat) (target : User)
    (hfound : findWithIndex (fun u => decide (u.id = id)) s.users
      = some (i, target)) :
    (deleteUser s id (.err msg)).1.users = s.users ∧
    (deleteUser s id (.err msg)).1.users.get? i = some target ∧
    (deleteUser s id (.err msg)).1.lastDeletedUser = none ∧
    (deleteUser s id (.err msg)).2.1 = DeleteResult.remoteFailure msg := by
  have hback : (deleteUser s id (.err msg)).1.users = s.users := by
    simp [deleteUser, deleteStart, hfound, deleteFinish]
  refine ⟨hback, ?_, ?_, ?_⟩
  · rw [hback]
    exact (findWithIndex_some hfound).2
  · simp [deleteUser, deleteStart, hfound, deleteFinish]
  · simp [deleteUser, deleteStart, hfound, deleteFinish]

theorem delete_remoteFailure_rollback_witness :
    (deleteUser demoState 2 (.err "down")).1.users = demoState.users ∧
    (deleteUser demoState 2 (.err "down")).1.users.get? 1 = some bobUser ∧
    (deleteUser demoState 2 (.err "down")).1.lastDeletedUser = none ∧
    (deleteUser demoState 2 (.err "down")).2.1
      = DeleteResult.remoteFailure "down" :=
  delete_remoteFailure_rollback demoState 2 "down" 1 bobUser (by decide)

/-- C6: when the target id is absent from the current snapshot, Update and
Delete both complete locally as NotFound, issue no request to the Remote
Store, and leave the whole state except the loading flag unchanged, so in
particular the cache snapshot and the pending-deletion buffer. -/
theorem absent_id_notFound (s : ServiceState) (id : Nat) (patch : UserPatch)
    (respU : RemoteResult User) (respD : RemoteResult Unit)
    (habsent : findWithIndex (fun u => decide (u.id = id)) s.users = none) :
    updateUser s id patch respU
      = ({ s with loading := false }, UpdateResult.notFound, []) ∧
    deleteUser s id respD
      = ({ s with loading := false }, DeleteResult.notFound, []) := by
  constructor
  · simp [updateUser, updateStart, habsent]
  · simp [deleteUser, deleteStart, habsent]

theorem absent_id_notFound_witness :
    updateUser demoState 9999 {} (.ok aliceUpdated)
      = ({ demoState with loading := false }, UpdateResult.notFound, []) ∧
    deleteUser demoState 9999 (.ok ())
      = ({ demoState with loading := false }, DeleteResult.notFound, []) :=
  absent_id_notFound demoState 9999 {} (.ok aliceUpdated) (.ok ()) (by decide)

/-- C9: when an update is acknowledged but at completion time no record in the
current cache list carries the target id (for instance because a delete landed
while the update was in flight), the completion phase leaves the cache
entirely unchanged: the server record is silently dropped, not re-inserted. -/
theorem update_ack_target_gone (s : ServiceState) (originalUsers : List User)
    (id : Nat) (serverUser : User)
    (habsent : findWithIndex (fun u => decide (u.id = id)) s.users = none) :
    updateFinish s originalUsers id (.ok serverUser)
      = ({ s with loading := false }, UpdateResult.ok serverUser) := by
  simp [updateFinish, habsent]

theorem update_ack_target_gone_witness :
    updateFinish (deleteUser (updateStart demoState 1 {}).1 1 (.ok ())).1
        demoState.users 1 (.ok aliceUpdated)
      = ({ (deleteUser (updateStart demoState 1 {}).1 1 (.ok ())).1 with
            loading := false },
         UpdateResult.ok aliceUpdated) :=
  update_ack_target_gone _ demoState.users 1 aliceUpdated (by decide)

/-- C10: UndoDelete posts the captured record unchanged, its original id
field included, as the body of the re-create request, and the record that
enters the cache is whatever record the store returns for that request,
appended at the end of the list. -/
theorem undo_reposts_captured_record (s : ServiceState)
    (pd : PendingDeletion) (resp : RemoteResult User)
    (hpd : s.lastDeletedUser = some pd) :
    (undoDelete s resp).2.2 = [Request.post pd.user] ∧
    ∀ v, resp = RemoteResult.ok v →
      (undoDelete s resp).1.users = s.users ++ [v] := by
  cases resp with
  | ok v =>
    refine ⟨by simp [undoDelete, hpd, createUser], ?_⟩
    intro w hw
    cases hw
    simp [undoDelete, hpd, createUser]
  | err msg =>
    refine ⟨by simp [undoDelete, hpd, createUser], ?_⟩
    intro w hw
    cases hw

theorem undo_reposts_captured_record_witness :
    (undoDelete (deleteUser demoState 1 (.ok ())).1 (.ok carolUserFresh)).2.2
      = [Request.post aliceUser] ∧
    ∀ v, RemoteResult.ok carolUserFresh = RemoteResult.ok v →
      (undoDelete (deleteUser demoState 1 (.ok ())).1
          (.ok carolUserFresh)).1.users
        = (deleteUser demoState 1 (.ok ())).1.users ++ [v] :=
  undo_reposts_captured_record (deleteUser demoState 1 (.ok ())).1
    ⟨aliceUser, 0⟩ (.ok carolUserFresh) (by decide)

/-- C3 fails as stated: an Update whose patch sets the id field can leave two
records with the same id in the cache.  From the two-record cache with ids 1
and 2, Update(2, patch setting id to 1) merges optimistically to a list with
ids 1 and 1; the acknowledged server response (here the stored record with its
id 2 intact) is then reconciled by looking up id 2 in the current list, finds
nothing, and leaves the duplicate in place.  No create operation is involved,
so no assumption about store-assigned create ids can save the statement. -/
theorem cache_ids_nodup_counterexample :
    (cacheIds demoState).Nodup ∧
    ¬ (cacheIds (runOps demoState
        [MutationOp.update 2 idOnlyPatch (RemoteResult.ok bobUser)])).Nodup := by
  decide

/-- C3 (amended): for every finite sequence of Create, Update, Delete and
UndoDelete operations executed sequentially from a cache with pairwise
distinct ids, the resulting cache never contains two records sharing an id,
provided every acknowledged create (or undo re-create) response carries an id
fresh for the cache it is appended to, every acknowledged update response
keeps the target id, and no update patch sets the id field. -/
theorem cache_ids_nodup_invariant (s : ServiceState) (ops : List MutationOp)
    (h0 : (cacheIds s).Nodup) (hw : wellFormedTrace s ops = true) :
    (cacheIds (runOps s ops)).Nodup := by
  induction ops generalizing s with
  | nil => simpa [runOps] using h0
  | cons op ops ih =>
    simp only [wellFormedTrace, Bool.and_eq_true] at hw
    exact ih (applyOp s op) (applyOp_nodup s op h0 hw.1) hw.2

theorem cache_ids_nodup_invariant_witness :
    (cacheIds (runOps demoState
      [MutationOp.delete 1 (RemoteResult.ok ()),
       MutationOp.undo (RemoteResult.ok carolUserFresh),
       MutationOp.update 2 { firstName := some "Bobby" }
         (RemoteResult.ok bobRenamed),
       MutationOp.create carolUser (RemoteResult.ok carolUser)])).Nodup :=
  cache_ids_nodup_invariant demoState _ (by decide) (by decide)

/-- C4: after Delete(idA) then Delete(idB), both acknowledged, the single-slot
pending-deletion buffer holds only the record captured at idB's deletion;
UndoDelete then re-creates exactly that record (the post body is the idB
capture) and appends the acknowledged record; and a second UndoDelete
immediately afterwards is the NothingToUndo no-op that leaves the whole state,
and in particular the cache, unchanged and issues no request. -/
theorem second_delete_overwrites_undo_slot (s : ServiceState)
    (idA idB : Nat) (iA jB : Nat) (uA uB : User) (v : User)
    (resp2 : RemoteResult User)
    (hA : findWithIndex (fun u => decide (u.id = idA)) s.users
      = some (iA, uA))
    (hB : findWithIndex (fun u => decide (u.id = idB))
        (deleteUser s idA (.ok ())).1.users = some (jB, uB)) :
    ((deleteUser (deleteUser s idA (.ok ())).1 idB (.ok ())).1.lastDeletedUser
      = some ⟨uB, jB⟩) ∧
    ((undoDelete (deleteUser (deleteUser s idA (.ok ())).1 idB
        (.ok ())).1 (.ok v)).2.2 = [Request.post uB]) ∧
    ((undoDelete (deleteUser (deleteUser s idA (.ok ())).1 idB
        (.ok ())).1 (.ok v)).1.users
      = (deleteUser (deleteUser s idA (.ok ())).1 idB (.ok ())).1.users
          ++ [v]) ∧
    (undoDelete (undoDelete (deleteUser (deleteUser s idA (.ok ())).1 idB
        (.ok ())).1 (.ok v)).1 resp2
      = ((undoDelete (deleteUser (deleteUser s idA (.ok ())).1 idB
          (.ok ())).1 (.ok v)).1, UndoResult.nothingToUndo, [])) := by
  set s1 : ServiceState := (deleteUser s idA (.ok ())).1 with hs1
  have h2 : (deleteUser s1 idB (.ok ())).1.lastDeletedUser = some ⟨uB, jB⟩ := by
    simp only [deleteUser, deleteStart, hB, deleteFinish]
  set s2 : ServiceState := (deleteUser s1 idB (.ok ())).1 with hs2
  have h3 : (undoDelete s2 (.ok v)).2.2 = [Request.post uB] := by
    simp [undoDelete, h2, createUser]
  have h4 : (undoDelete s2 (.ok v)).1.users = s2.users ++ [v] := by
    simp [undoDelete, h2, createUser]
  have h5 : (undoDelete s2 (.ok v)).1.lastDeletedUser = none := by
    simp [undoDelete, h2, createUser]
  set u1 : ServiceState := (undoDelete s2 (.ok v)).1 with hu1
  refine ⟨h2, h3, h4, ?_⟩
  simp [undoDelete, h5]

theorem second_delete_overwrites_undo_slot_witness :
    ((deleteUser (deleteUser demoState 1 (.ok ())).1 2
        (.ok ())).1.lastDeletedUser = some ⟨bobUser, 0⟩) ∧
    ((undoDelete (deleteUser (deleteUser demoState 1 (.ok ())).1 2
        (.ok ())).1 (.ok carolUserFresh)).2.2 = [Request.post bobUser]) ∧
    ((undoDelete (deleteUser (deleteUser demoState 1 (.ok ())).1 2
        (.ok ())).1 (.ok carolUserFresh)).1.users
      = (deleteUser (deleteUser demoState 1 (.ok ())).1 2 (.ok ())).1.users
          ++ [carolUserFresh]) ∧
    (undoDelete (undoDelete (deleteUser (deleteUser demoState 1 (.ok ())).1 2
        (.ok ())).1 (.ok carolUserFresh)).1 (.ok carolUserFresh)
      = ((undoDelete (deleteUser (deleteUser demoState 1 (.ok ())).1 2
          (.ok ())).1 (.ok carolUserFresh)).1, UndoResult.nothingToUndo, [])) :=
  second_delete_overwrites_undo_slot demoState 1 2 0 0 aliceUser bobUser
    carolUserFresh (.ok carolUserFresh) (by decide) (by decide)

/-- C5: Delete(id) followed immediately by UndoDelete against a store that
acknowledges both requests yields a cache that again contains a record whose
non-id fields equal those of the deleted record (the id may differ), appended
at the end of the list rather than restored to its original index; and the
pending-deletion buffer is empty after the undo completes, also when the
re-create fails. -/
theorem delete_undo_roundtrip (s : ServiceState) (id : Nat) (i : Nat)
    (target : User) (v : User) (msg : String)
    (hfound : findWithIndex (fun u => decide (u.id = id)) s.users
      = some (i, target))
    (hv : sameRecordFields v target = true) :
    ((undoDelete (deleteUser s id (.ok ())).1 (.ok v)).1.users
      = (deleteUser s id (.ok ())).1.users ++ [v]) ∧
    (∃ w, w ∈ (undoDelete (deleteUser s id (.ok ())).1 (.ok v)).1.users ∧
      sameRecordFields w target = true) ∧
    ((undoDelete (deleteUser s id (.ok ())).1 (.ok v)).1.lastDeletedUser
      = none) ∧
    ((undoDelete (deleteUser s id (.ok ())).1 (.err msg)).1.lastDeletedUser
      = none) := by
  have h1 : (deleteUser s id (.ok ())).1.lastDeletedUser = some ⟨target, i⟩ := by
    simp only [deleteUser, deleteStart, hfound, deleteFinish]
  set s1 : ServiceState := (deleteUser s id (.ok ())).1 with hs1
  have h2 : (undoDelete s1 (.ok v)).1.users = s1.users ++ [v] := by
    simp [undoDelete, h1, createUser]
  refine ⟨h2, ⟨v, ?_, hv⟩, ?_, ?_⟩
  · rw [h2]
    simp
  · simp [undoDelete, h1, createUser]
  · simp [undoDelete, h1, createUser]

theorem delete_undo_roundtrip_witness :
    ((undoDelete (deleteUser demoState3 3 (.ok ())).1
        (.ok carolUserFresh)).1.users
      = (deleteUser demoState3 3 (.ok ())).1.users ++ [carolUserFresh]) ∧
    (∃ w, w ∈ (undoDelete (deleteUser demoState3 3 (.ok ())).1
        (.ok carolUserFresh)).1.users ∧
      sameRecordFields w carolUser = true) ∧
    ((undoDelete (deleteUser demoState3 3 (.ok ())).1
        (.ok carolUserFresh)).1.lastDeletedUser = none) ∧
    ((undoDelete (deleteUser demoState3 3 (.ok ())).1
        (.err "post failed")).1.lastDeletedUser = none) :=
  delete_undo_roundtrip demoState3 3 2 carolUser carolUserFresh "post failed"
    (by decide) (by decide)

/-- C7: for every snapshot and criteria object, Filter returns exactly the
order-preserving subsequence of the snapshot whose records satisfy the
conjunction of all provided criteria: searchTerm as a case-insensitive
substring of first name, last name, email or username, role, status and
department as exact matches, omitted criteria imposing no constraint.  A
department criterion that is the empty string is JavaScript-falsy and treated
by the source as omitted, so it is excluded here. -/
theorem filter_returns_matching_subsequence (s : ServiceState)
    (f : UserFilter) (hd : f.department ≠ some "") :
    filterUsers s f = s.users.filter (fun u => matchesFilterSpec f u) ∧
    (filterUsers s f).Sublist s.users ∧
    ∀ u, u ∈ filterUsers s f ↔ u ∈ s.users ∧ matchesFilterSpec f u = true := by
  have he := filterUsers_eq_filter s f hd
  refine ⟨he, ?_, ?_⟩
  · rw [he]
    exact List.filter_sublist _
  · intro u
    rw [he]
    simp [List.mem_filter]

theorem filter_returns_matching_subsequence_witness :
    filterUsers demoState3 { role := some .user, status := some .active }
      = demoState3.users.filter (fun u =>
          matchesFilterSpec { role := some .user, status := some .active } u) :=
  (filter_returns_matching_subsequence demoState3
    { role := some .user, status := some .active } (by decide)).1

/-- C8: for every snapshot, 1-indexed page and positive pageSize, Paginate
applies Filter when criteria are given (else the full snapshot), reports
total as the filtered length, totalPages as the ceiling division of total by
pageSize, and returns as data the slice from (page - 1) * pageSize of length
at most pageSize, element for element, empty when the slice start is out of
range. -/
theorem pagination_correct (s : ServiceState) (page pageSize : Nat)
    (f : Option UserFilter) (hp : 1 ≤ page) (hps : 1 ≤ pageSize) :
    (getPaginatedUsers s page pageSize f).total = (filteredList s f).length ∧
    (getPaginatedUsers s page pageSize f).page = page ∧
    (getPaginatedUsers s page pageSize f).pageSize = pageSize ∧
    (getPaginatedUsers s page pageSize f).totalPages
      = (filteredList s f).length ⌈/⌉ pageSize ∧
    (filteredList s f).length
      ≤ pageSize * (getPaginatedUsers s page pageSize f).totalPages ∧
    pageSize * (getPaginatedUsers s page pageSize f).totalPages
      < (filteredList s f).length + pageSize ∧
    (getPaginatedUsers s page pageSize f).data
      = ((filteredList s f).drop ((page - 1) * pageSize)).take pageSize ∧
    (getPaginatedUsers s page pageSize f).data.length
      = min pageSize ((filteredList s f).length - (page - 1) * pageSize) ∧
    (∀ k, k < (getPaginatedUsers s page pageSize f).data.length →
      (getPaginatedUsers s page pageSize f).data.get? k
        = (filteredList s f).get? ((page - 1) * pageSize + k)) ∧
    ((filteredList s f).length ≤ (page - 1) * pageSize →
      (getPaginatedUsers s page pageSize f).data = []) := by
  have hmod := Nat.div_add_mod ((filteredList s f).length + pageSize - 1)
    pageSize
  have hmlt : ((filteredList s f).length + pageSize - 1) % pageSize
      < pageSize := Nat.mod_lt _ (by omega)
  refine ⟨by simp [getPaginatedUsers], by simp [getPaginatedUsers],
    by simp [getPaginatedUsers],
    by simp [getPaginatedUsers, Nat.ceilDiv_eq_add_pred_div],
    ?_, ?_, by simp [getPaginatedUsers], ?_, ?_, ?_⟩
  · simp only [getPaginatedUsers]
    omega
  · simp only [getPaginatedUsers]
    omega
  · simp only [getPaginatedUsers, List.length_take, List.length_drop]
  · intro k hk
    simp only [getPaginatedUsers, List.length_take, List.length_drop] at hk
    simp only [getPaginatedUsers]
    have hk2 : k < pageSize := by omega
    exact slice_get? _ _ _ _ hk2
  · intro hle
    simp only [getPaginatedUsers]
    rw [List.drop_eq_nil_of_le hle, List.take_nil]

theorem pagination_correct_witness :
    (getPaginatedUsers demoState25 3 10 none).data.length = 5 ∧
    (getPaginatedUsers demoState25 3 10 none).totalPages = 3 := by
  have h := pagination_correct demoState25 3 10 none (by decide) (by decide)
  refine ⟨?_, ?_⟩
  · rw [h.2.2.2.2.2.2.2.1]
    decide
  · rw [h.2.2.2.1]
    decide
